import Mathlib

/-!
Verification of the replicate-group aggregation and peak-extraction pipeline
of the spatial-dynamics figure scripts.

The embedding models a pandas DataFrame read from a CSV as a list of named
columns.  A cell is either a numeric value (modelled as a rational), a
non-numeric text entry, or NaN.  `pd.to_numeric(..., errors := coerce)` maps a
text entry to NaN, and `np.nanmean` averages the non-NaN entries of a row,
yielding NaN when none remain.
-/

/-- A single cell of a table: numeric, textual, or NaN. -/
inductive Cell where
  | num (q : ℚ)
  | str (s : String)
  | nan
deriving DecidableEq, Repr

/-- Numeric coercion of a cell, as by to_numeric with coercion of errors:
text and NaN become NaN (`none`). -/
def Cell.toQ : Cell → Option ℚ
  | .num q => some q
  | _ => none

/-- Row-wise nanmean: the arithmetic mean of the numeric entries,
NaN when there is no numeric entry. -/
def nanmeanCells (cells : List Cell) : Cell :=
  let vals := cells.filterMap Cell.toQ
  if vals.isEmpty then Cell.nan else Cell.num (vals.sum / vals.length)

/-- A data frame: a list of named columns in order. -/
structure DF where
  cols : List (String × List Cell)
deriving DecidableEq, Repr

/-- The column names, in order. -/
def DF.colNames (d : DF) : List String := d.cols.map Prod.fst

/-- Column lookup by name (first matching column, as in pandas with
unique headers). -/
def DF.col? (d : DF) (c : String) : Option (List Cell) :=
  (d.cols.find? (fun nc => nc.1 = c)).map Prod.snd

/-- The shape of a frame: column names with their lengths. -/
def DF.shape (d : DF) : List (String × Nat) :=
  d.cols.map (fun nc => (nc.1, nc.2.length))

/-- The name of the time column in the simulation CSVs. -/
def timeName : String := "Time"

namespace Agg

/-- One averaged column of calculate_averages_for_group:
collect the column from every member that has it, and when all collected
columns have equal length (column_stack succeeds) take the row-wise nanmean;
a length mismatch raises in column_stack and the handler falls back to the
first member's values.  (The numeric-dtype test in the source is always true
because coercion yields a float array, so it is not a branch here.) -/
def aggCol (dfs : List DF) (name : String) (firstVals : List Cell) : List Cell :=
  let colVals := dfs.filterMap (fun d => d.col? name)
  let n := (colVals.headD []).length
  if colVals.all (fun l => l.length = n) then
    (List.range n).map (fun i => nanmeanCells (colVals.map (fun l => l.getD i Cell.nan)))
  else
    firstVals

/-- calculate_averages_for_group from 2_process_csv_averages.py: with no
member frames it reports an error and returns None; otherwise it emits one
frame with the first member's columns, the Time column copied verbatim and
every other column averaged member-wise. -/
def calculate_averages_for_group (dfs : List DF) : Option DF :=
  match dfs with
  | [] => none
  | first :: rest =>
    some ⟨first.cols.map (fun nc =>
      if nc.1 = timeName then nc
      else (nc.1, aggCol (first :: rest) nc.1 nc.2))⟩

/-- One group's member files as loaded in the folder loop: `none` is a
missing or unreadable simulation_output.csv (skipped with a warning). -/
def calcFromFiles (files : List (Option DF)) : Option DF :=
  calculate_averages_for_group (files.filterMap id)

/-- The per-group warning of main when the folder count deviates from 30. -/
def countWarning (found : Nat) : String :=
  "Warning: Expected 30 folders, found " ++ toString found

/-- One iteration of main's group loop: the count warning (if any) and the
group's summary (None when no member file was readable). -/
def process_group_entry (g : Nat × List (Option DF)) : List String × Option DF :=
  (if g.2.length = 30 then [] else [countWarning g.2.length], calcFromFiles g.2)

/-- main's group loop over all groups: each group yields its own summary
entry, independently of the others. -/
def main_outputs (gs : List (Nat × List (Option DF))) : List (Nat × Option DF) :=
  gs.map (fun g => (g.1, (process_group_entry g).2))

end Agg

/-! Specification-side definitions, written from the words of the spec for
refinement comparison against the code-side definitions above. -/

/-- Written from the spec: a member table's value in column c at exactly the
row whose time entry equals t (no tolerance), None when the table has no such
row or lacks the column. -/
def specValueAtTime (d : DF) (c : String) (t : ℚ) : Option ℚ :=
  match d.col? timeName, d.col? c with
  | some tc, some vc =>
    match tc.findIdx? (fun cell => cell = Cell.num t) with
    | some i => (vc.getD i Cell.nan).toQ
    | none => none
  | _, _ => none

/-- Written from the spec: the arithmetic mean of the members' values at
exactly time t (over the members holding such a value). -/
def specGroupMeanAt (dfs : List DF) (c : String) (t : ℚ) : Option ℚ :=
  let vs := dfs.filterMap (fun d => specValueAtTime d c t)
  if vs.isEmpty then none else some (vs.sum / vs.length)

/-! Directory-name parameter parsing, shared by 2_process_csv_averages.py and
4_process_peak_ifn.py: re.search of the literal tag DIPBst followed by a
maximal run of digits, at the leftmost position where both are present. -/

/-- Decimal value of a digit character. -/
def digitVal (c : Char) : Nat := c.toNat - 48

/-- Decimal reading of a digit run, as by int(). -/
def digitsToNat (ds : List Char) : Nat := ds.foldl (fun a c => 10 * a + digitVal c) 0

/-- The literal tag searched for in folder names. -/
def tagChars : List Char := ['D', 'I', 'P', 'B', 's', 't']

/-- Whether the second list starts with the first. -/
def startsWithChars : List Char → List Char → Bool
  | [], _ => true
  | _ :: _, [] => false
  | p :: ps, c :: cs => p = c && startsWithChars ps cs

/-- Attempt to match the regex at the current position: the tag, then a
maximal nonempty digit run. -/
def tryTag (l : List Char) : Option Nat :=
  if startsWithChars tagChars l then
    let ds := (l.drop 6).takeWhile Char.isDigit
    if ds.isEmpty then none else some (digitsToNat ds)
  else none

/-- re.search: try the pattern at every position, leftmost first. -/
def searchTag : List Char → Option Nat
  | [] => none
  | c :: cs =>
    match tryTag (c :: cs) with
    | some n => some n
    | none => searchTag cs

/-- extract_dipbst_from_folder_name: the integer after the first DIPBst tag
that is followed by digits, None when the pattern never matches. -/
def extract_dipbst_from_folder_name (s : String) : Option Nat := searchTag s.toList

/-- Whether the first list occurs inside the second as a contiguous run
(the Python in operator on strings). -/
def containsSub (pat : List Char) : List Char → Bool
  | [] => pat.isEmpty
  | c :: cs => startsWithChars pat (c :: cs) || containsSub pat cs

/-- First-occurrence deduplication against an accumulator of already seen
elements (the effect of passing a list through set()). -/
def dedupSeen {α : Type} [DecidableEq α] (seen : List α) : List α → List α
  | [] => []
  | x :: xs => if x ∈ seen then dedupSeen seen xs else x :: dedupSeen (x :: seen) xs

/-- Insertion into a sorted list, keeping existing elements first on ties. -/
def insertLe {α : Type} (le : α → α → Bool) (x : α) : List α → List α
  | [] => [x]
  | y :: ys => if le x y then x :: y :: ys else y :: insertLe le x ys

/-- Stable insertion sort, modelling sorted(). -/
def sortLe {α : Type} (le : α → α → Bool) : List α → List α
  | [] => []
  | x :: xs => insertLe le x (sortLe le xs)

/-! The peak-extraction script 4_process_peak_ifn.py. -/

namespace Peak

/-- The measurement column holding the interferon concentration. -/
def ifnName : String := "Global IFN Concentration Per Cell"

/-- The scenario label attached to every emitted row. -/
def baselineLabel : String := "baseline"

/-- df.empty: the frame has no columns or no rows. -/
def hasNoRows (d : DF) : Bool :=
  d.cols.isEmpty || d.cols.all (fun nc => nc.2.isEmpty)

/-- Whether a cell is a text entry (making the column object-typed, so that
idxmax raises and the handler returns None). -/
def Cell.isStr : Cell → Bool
  | .str _ => true
  | _ => false

/-- Scanner behind idxmax: left to right, keeping the first maximum seen so
far and skipping NaN. -/
def idxmaxGo : List Cell → Nat → Option (Nat × ℚ) → Option (Nat × ℚ)
  | [], _, best => best
  | c :: cs, i, best =>
    match c.toQ, best with
    | some q, some bp =>
      if bp.2 < q then idxmaxGo cs (i + 1) (some (i, q))
      else idxmaxGo cs (i + 1) (some bp)
    | some q, none => idxmaxGo cs (i + 1) (some (i, q))
    | none, b => idxmaxGo cs (i + 1) b

/-- Series.idxmax: the index of the first occurrence of the maximum,
NaN entries skipped; None when no numeric entry exists (idxmax raises). -/
def idxmaxCells (cells : List Cell) : Option Nat :=
  (idxmaxGo cells 0 none).map Prod.fst

/-- A simulation directory as the script sees it: its base name, the parsed
seed.txt content (`none` when the file is missing, unreadable, or not an
integer), and the loaded simulation_output.csv (`none` when missing). -/
structure SimDir where
  name : String
  seed : Option Int
  data : Option DF
deriving DecidableEq, Repr

/-- One emitted row of the peak table. -/
structure PeakRow where
  burst_size_DIP : Nat
  seed : Int
  peak_IFN : ℚ
  t_peak_IFN : Cell
  scenario : String
deriving DecidableEq, Repr

/-- process_simulation_dir: skip directories without a DIPBst tag; a failed
seed read only leaves seed at -1; a missing data file, an empty frame, a
missing Time or IFN column, or a non-numeric IFN column (idxmax raising in
the try block) each exclude the run; otherwise report the first-maximum row
of the IFN column. -/
def process_simulation_dir (d : SimDir) : Option PeakRow :=
  match extract_dipbst_from_folder_name d.name with
  | none => none
  | some bst =>
    let seed := d.seed.getD (-1)
    match d.data with
    | none => none
    | some df =>
      if hasNoRows df then none
      else
        match df.col? timeName, df.col? ifnName with
        | some tc, some ic =>
          if ic.any Cell.isStr then none
          else
            match idxmaxCells ic with
            | none => none
            | some i =>
              some ⟨bst, seed, ((ic.getD i Cell.nan).toQ).getD 0,
                    tc.getD i Cell.nan, baselineLabel⟩
        | _, _ => none

/-- The glob pattern prefix for replicate directories. -/
def repPatternChars : List Char :=
  "IFNclr3_30runs_global_celltocell_tau95_option1".toList

/-- A replicate directory: its base name and the simulation directories
inside it. -/
structure RepDir where
  name : String
  sims : List SimDir
deriving DecidableEq, Repr

/-- find_replicate_dirs over one location: keep the entries matching the
glob pattern, and exit(1) when none does. -/
def find_replicate_dirs (entries : List RepDir) : Except Unit (List RepDir) :=
  let m := entries.filter (fun d => startsWithChars repPatternChars d.name.toList)
  if m.isEmpty then Except.error () else Except.ok m


/-- extract_replicate_id: a trailing underscore-digits suffix gives that
number; otherwise a name containing option1 is replicate 1; otherwise None. -/
def extract_replicate_id (s : String) : Option Nat :=
  let r := s.toList.reverse
  let ds := r.takeWhile Char.isDigit
  if !ds.isEmpty && (r.drop ds.length).head? = some '_' then
    some (digitsToNat ds.reverse)
  else if containsSub ("option1".toList) s.toList then some 1
  else none

/-- The glob filter on simulation directory names: a leading digit and the
literal _DIPBst somewhere. -/
def simGlobMatch (s : String) : Bool :=
  match s.toList with
  | [] => false
  | c :: _ => c.isDigit && containsSub ("_DIPBst".toList) s.toList

/-- Lexicographic comparison of character lists. -/
def lexLeChars : List Char → List Char → Bool
  | [], _ => true
  | _ :: _, [] => false
  | a :: as, b :: bs => a < b || (a = b && lexLeChars as bs)

/-- main of 4_process_peak_ifn.py over an abstract tree: the entries of the
nested location are scanned first and the sibling location second, each
through find_replicate_dirs (which exits on an empty match); the union is
deduplicated and sorted, every replicate with a recognisable id contributes
its matching simulation directories, and with zero processed rows the script
exits(1); otherwise the rows are emitted sorted by burst size. -/
def peakMain (nested sibling : List RepDir) : Except Nat (List (Nat × PeakRow)) :=
  match find_replicate_dirs nested with
  | Except.error _ => Except.error 1
  | Except.ok nd =>
    match find_replicate_dirs sibling with
    | Except.error _ => Except.error 1
    | Except.ok sd =>
      let reps := sortLe (fun a b => lexLeChars a.name.toList b.name.toList)
        (dedupSeen [] (nd ++ sd))
      let rows := reps.flatMap (fun rep =>
        match extract_replicate_id rep.name with
        | none => []
        | some rid =>
          (rep.sims.filter (fun sim => simGlobMatch sim.name)).filterMap
            (fun sim => (process_simulation_dir sim).map (fun r => (rid, r))))
      if rows.isEmpty then Except.error 1
      else Except.ok (sortLe (fun a b => a.2.burst_size_DIP ≤ b.2.burst_size_DIP) rows)

end Peak

/-- Decidable equality of Except results, for evaluating peakMain on
concrete trees. -/
instance {e a : Type} [DecidableEq e] [DecidableEq a] : DecidableEq (Except e a) :=
  fun x y =>
    match x, y with
    | .error u, .error v =>
      if h : u = v then .isTrue (congrArg Except.error h)
      else .isFalse (fun hh => h (Except.error.inj hh))
    | .error _, .ok _ => .isFalse (fun hh => Except.noConfusion hh)
    | .ok _, .error _ => .isFalse (fun hh => Except.noConfusion hh)
    | .ok u, .ok v =>
      if h : u = v then .isTrue (congrArg Except.ok h)
      else .isFalse (fun hh => h (Except.ok.inj hh))

/-! A concrete filesystem scenario for 4_process_peak_ifn.py: a readable,
fully processable replicate tree placed as a sibling of the (absent) base
folder. -/

/-- A well-formed simulation output table. -/
def goodDF : DF :=
  ⟨[(timeName, [Cell.num 0, Cell.num 1]),
    (Peak.ifnName, [Cell.num 1, Cell.num 2])]⟩

/-- A fully readable simulation directory. -/
def goodSim : Peak.SimDir :=
  ⟨"1_DIPBst100_run", some 5, some goodDF⟩

/-- A replicate directory holding that simulation. -/
def goodRep : Peak.RepDir :=
  ⟨"IFNclr3_30runs_global_celltocell_tau95_option1_2", [goodSim]⟩

/-! The signal-to-noise helper of 5_analyze_peak_ifn.py. -/

namespace Snr

/-- The distinct group keys of groupby. -/
def groupKeys (rows : List (Int × ℚ)) : List Int :=
  dedupSeen [] (rows.map Prod.fst)

/-- The values carried by one group. -/
def groupValues (rows : List (Int × ℚ)) (k : Int) : List ℚ :=
  (rows.filter (fun r => r.1 = k)).map Prod.snd

/-- The per-group value lists of groupby. -/
def groupsOf (rows : List (Int × ℚ)) : List (List ℚ) :=
  (groupKeys rows).map (groupValues rows)

/-- The arithmetic mean of a list (0 on the empty list, which groupby never
produces). -/
def qmean (l : List ℚ) : ℚ := l.sum / l.length

/-- Sample variance with one delta degree of freedom, NaN (None) on fewer
than two observations, as Series.var. -/
def sampleVar (l : List ℚ) : Option ℚ :=
  if l.length < 2 then none
  else some ((l.map (fun x => (x - qmean l) ^ 2)).sum / (l.length - 1 : ℕ))

/-- The NaN-skipping mean of Series.mean: None when no value remains. -/
def nanmeanOpt (l : List (Option ℚ)) : Option ℚ :=
  let vs := l.filterMap id
  if vs.isEmpty then none else some (qmean vs)

/-- The between-group variance: the sample variance of the per-group means. -/
def varBetween (rows : List (Int × ℚ)) : Option ℚ :=
  sampleVar ((groupsOf rows).map qmean)

/-- The mean within-group variance: the NaN-skipping mean of the per-group
sample variances. -/
def meanVarWithin (rows : List (Int × ℚ)) : Option ℚ :=
  nanmeanOpt ((groupsOf rows).map sampleVar)

/-- The result of calculate_snr: a number, inf, or NaN. -/
inductive SnrVal where
  | val (q : ℚ)
  | inf
  | nan
deriving DecidableEq, Repr

/-- calculate_snr: inf when the mean within-group variance equals zero, the
ratio otherwise, with NaN propagating through the comparison (NaN compares
unequal to 0) and the division. -/
def calculate_snr (rows : List (Int × ℚ)) : SnrVal :=
  match meanVarWithin rows with
  | some m =>
    if m = 0 then SnrVal.inf
    else
      match varBetween rows with
      | some v => SnrVal.val (v / m)
      | none => SnrVal.nan
  | none => SnrVal.nan

/-- Written from the spec: the sample variance through the sum-of-squares
formula, for comparison with the deviation-from-the-mean form used above. -/
def specVarSumSq (l : List ℚ) : Option ℚ :=
  if l.length < 2 then none
  else some (((l.map (fun x => x ^ 2)).sum - l.length * qmean l ^ 2) / (l.length - 1 : ℕ))

end Snr

namespace Peak

/-- Reference form of the idxmax scanner on an all-numeric column: keep the
first maximum seen so far. -/
def argmaxFrom : List ℚ → Nat → Nat × ℚ → Nat × ℚ
  | [], _, best => best
  | q :: qs, i, best =>
    if best.2 < q then argmaxFrom qs (i + 1) (i, q)
    else argmaxFrom qs (i + 1) best

end Peak

/-- The run record of the specification's peak example: measurement values
0.1, 0.5, 0.3 at times 0, 1, 2. -/
def exampleDF : DF :=
  ⟨[(timeName, [Cell.num 0, Cell.num 1, Cell.num 2]),
    (Peak.ifnName, [Cell.num (1/10), Cell.num (1/2), Cell.num (3/10)])]⟩

/-- A simulation directory holding the example record. -/
def exampleSim : Peak.SimDir := ⟨"3_DIPBst20_run", some 1, some exampleDF⟩

/-- A second member table with the same shape and time grid as goodDF. -/
def goodDF2 : DF :=
  ⟨[(timeName, [Cell.num 0, Cell.num 1]),
    (Peak.ifnName, [Cell.num 3, Cell.num 5])]⟩

/-!
Claims.  Each claim of the specification is settled by one theorem below,
with a closed witness instantiating every theorem that carries hypotheses.
-/

/-- C6: during group aggregation a missing or unreadable member file is
skipped (inserting one changes nothing), a group with zero readable files
produces no summary, and such a group affects only its own entry of the
main loop: every other group's summary is still produced unchanged. -/
theorem c6_group_error_isolation :
    (∀ files : List (Option DF), files.filterMap id = [] →
      Agg.calcFromFiles files = none)
    ∧ (∀ pre post : List (Option DF),
        Agg.calcFromFiles (pre ++ none :: post) = Agg.calcFromFiles (pre ++ post))
    ∧ (∀ (pre post : List (Nat × List (Option DF))) (bad : Nat × List (Option DF)),
        bad.2.filterMap id = [] →
        Agg.main_outputs (pre ++ bad :: post)
          = Agg.main_outputs pre ++ (bad.1, none) :: Agg.main_outputs post) := by
  refine ⟨?_, ?_, ?_⟩
  · intro files h
    unfold Agg.calcFromFiles
    rw [h]
    rfl
  · intro pre post
    simp [Agg.calcFromFiles, List.filterMap_append, List.filterMap_cons]
  · intro pre post bad h
    simp [Agg.main_outputs, Agg.process_group_entry, Agg.calcFromFiles, h,
      Agg.calculate_averages_for_group]

/-- C6 witness: a group whose single file is unreadable yields no summary,
and in a run with such a group its entry alone reports the failure. -/
theorem c6_group_error_isolation_witness :
    Agg.calcFromFiles [(none : Option DF)] = none
    ∧ Agg.main_outputs [(3, [(none : Option DF)])] = [(3, none)] :=
  ⟨c6_group_error_isolation.1 [none] rfl,
   by simpa using c6_group_error_isolation.2.2 [] [] (3, [none]) rfl⟩

/-- C8: the fixed replicate count of 30 is not enforced: a group with at
least one readable file and any member count gets its summary computed by
the very same formula as a full group, the deviation only adds a warning
line, and the surrounding loop treats the group like any other. -/
theorem c8_replicate_count_not_enforced :
    ∀ (k : Nat) (files : List (Option DF)), files.filterMap id ≠ [] →
      ((Agg.process_group_entry (k, files)).2
          = Agg.calculate_averages_for_group (files.filterMap id)
        ∧ (Agg.process_group_entry (k, files)).2 ≠ none
        ∧ (files.length ≠ 30 →
            (Agg.process_group_entry (k, files)).1 = [Agg.countWarning files.length])
        ∧ ∀ pre post,
            Agg.main_outputs (pre ++ (k, files) :: post)
              = Agg.main_outputs pre
                ++ (k, Agg.calculate_averages_for_group (files.filterMap id))
                  :: Agg.main_outputs post) := by
  intro k files h
  refine ⟨rfl, ?_, ?_, ?_⟩
  · cases heq : files.filterMap id with
    | nil => exact absurd heq h
    | cons a as =>
      simp [Agg.process_group_entry, Agg.calcFromFiles, heq,
        Agg.calculate_averages_for_group]
  · intro hl
    simp [Agg.process_group_entry, hl]
  · intro pre post
    simp [Agg.main_outputs, Agg.process_group_entry, Agg.calcFromFiles]

/-- C8 witness: a two-member group (one file readable) still gets a summary
and only a warning about the count. -/
theorem c8_replicate_count_not_enforced_witness :
    (Agg.process_group_entry (7, [some goodDF, none])).2 ≠ none
    ∧ (Agg.process_group_entry (7, [some goodDF, none])).1 = [Agg.countWarning 2] := by
  have h := c8_replicate_count_not_enforced 7 [some goodDF, none] (by decide)
  exact ⟨h.2.1, h.2.2.1 (by decide)⟩

/-- C10: in the peak-extraction script a failed seed read does not exclude
the run: it is emitted with seed -1 whenever the data side succeeds, whereas
a missing data CSV excludes the run altogether. -/
theorem c10_seed_failure_not_fatal :
    ∀ (d : Peak.SimDir) (bst : Nat),
      extract_dipbst_from_folder_name d.name = some bst →
        ((d.data = none → Peak.process_simulation_dir d = none)
        ∧ (∀ df tc ic i, d.seed = none → d.data = some df →
            Peak.hasNoRows df = false →
            df.col? timeName = some tc → df.col? Peak.ifnName = some ic →
            ic.any Peak.Cell.isStr = false → Peak.idxmaxCells ic = some i →
            Peak.process_simulation_dir d
              = some ⟨bst, -1, ((ic.getD i Cell.nan).toQ).getD 0,
                      tc.getD i Cell.nan, Peak.baselineLabel⟩)) := by
  intro d bst hb
  constructor
  · intro hd
    simp [Peak.process_simulation_dir, hb, hd]
  · intro df tc ic i hs hd hrows htc hic hstr hmax
    simp [Peak.process_simulation_dir, hb, hd, hs, hrows, htc, hic, hstr, hmax]

/-- C10 witness: a directory with unreadable seed but good data is included
with seed -1; the same directory without the data file is excluded. -/
theorem c10_seed_failure_not_fatal_witness :
    Peak.process_simulation_dir ⟨("2_DIPBst50_x"), none, some goodDF⟩
      = some ⟨50, -1, 2, Cell.num 1, Peak.baselineLabel⟩
    ∧ Peak.process_simulation_dir ⟨("2_DIPBst50_x"), none, none⟩ = none := by
  refine ⟨?_, ?_⟩
  · have h := (c10_seed_failure_not_fatal ⟨("2_DIPBst50_x"), none, some goodDF⟩ 50
      (by decide)).2 goodDF [Cell.num 0, Cell.num 1] [Cell.num 1, Cell.num 2] 1
      rfl rfl (by decide) (by decide) (by decide) (by decide) (by decide)
    exact h
  · exact (c10_seed_failure_not_fatal ⟨("2_DIPBst50_x"), none, none⟩ 50 (by decide)).1 rfl

/-- C7: the script aborts with exit status 1 from the first
find_replicate_dirs call when the nested location alone has no match, even
though the sibling location holds a fully processable replicate: usable
inputs exist, contradicting the claim that a non-zero exit happens only when
zero usable inputs exist at all.  Feeding the same replicate to both
locations processes it successfully. -/
theorem c7_exit_despite_usable_inputs :
    Peak.peakMain [] [goodRep] = Except.error 1
    ∧ Peak.process_simulation_dir goodSim
        = some ⟨100, 5, 2, Cell.num 1, Peak.baselineLabel⟩
    ∧ Peak.peakMain [goodRep] [goodRep]
        = Except.ok [(2, ⟨100, 5, 2, Cell.num 1, Peak.baselineLabel⟩)] := by
  refine ⟨by decide, by decide, by decide⟩

/-! Helper lemmas for the tag parser. -/

lemma startsWithChars_self_append (p r : List Char) :
    startsWithChars p (p ++ r) = true := by
  induction p with
  | nil => rfl
  | cons c cs ih => simp [startsWithChars, ih]

lemma startsWithChars_eq_true_iff (p l : List Char) :
    startsWithChars p l = true ↔ ∃ r, l = p ++ r := by
  induction p generalizing l with
  | nil => simp [startsWithChars]
  | cons c cs ih =>
    cases l with
    | nil =>
      simp [startsWithChars]
    | cons d ds =>
      simp only [startsWithChars, Bool.and_eq_true, decide_eq_true_eq, List.cons_append]
      constructor
      · rintro ⟨hc, hs⟩
        obtain ⟨r, hr⟩ := (ih ds).mp hs
        exact ⟨r, by rw [← hc, hr]⟩
      · rintro ⟨r, hr⟩
        obtain ⟨h1, h2⟩ := List.cons.inj hr
        exact ⟨h1.symm, (ih ds).mpr ⟨r, h2⟩⟩

lemma takeWhile_digits_append (ds post : List Char)
    (h1 : ∀ c ∈ ds, c.isDigit = true)
    (h2 : ∀ c, post.head? = some c → c.isDigit = false) :
    (ds ++ post).takeWhile Char.isDigit = ds := by
  induction ds with
  | nil =>
    cases post with
    | nil => rfl
    | cons c cs => simp [List.takeWhile_cons, h2 c rfl]
  | cons c cs ih =>
    simp [List.takeWhile_cons, h1 c (List.mem_cons_self c cs),
      ih (fun x hx => h1 x (List.mem_cons_of_mem c hx))]

lemma tryTag_at_tag (ds post : List Char) (hne : ds ≠ [])
    (h1 : ∀ c ∈ ds, c.isDigit = true)
    (h2 : ∀ c, post.head? = some c → c.isDigit = false) :
    tryTag (tagChars ++ (ds ++ post)) = some (digitsToNat ds) := by
  have hemp : ds.isEmpty = false := by
    cases ds with
    | nil => exact absurd rfl hne
    | cons a as => rfl
  have hd : (tagChars ++ (ds ++ post)).drop 6 = ds ++ post := rfl
  simp [tryTag, startsWithChars_self_append, hd,
    takeWhile_digits_append ds post h1 h2, hemp]

lemma searchTag_cons_none {c : Char} {cs : List Char}
    (h : tryTag (c :: cs) = none) : searchTag (c :: cs) = searchTag cs := by
  simp [searchTag, h]

lemma searchTag_skip (pre rest : List Char)
    (h : ∀ i, i < pre.length → tryTag ((pre ++ rest).drop i) = none) :
    searchTag (pre ++ rest) = searchTag rest := by
  induction pre with
  | nil => rfl
  | cons c cs ih =>
    have h0 : tryTag (c :: (cs ++ rest)) = none := by
      have := h 0 (by simp)
      simpa using this
    rw [List.cons_append, searchTag_cons_none h0]
    exact ih (fun i hi => by
      have := h (i + 1) (by simpa using Nat.succ_lt_succ hi)
      simpa [List.drop_succ_cons] using this)

lemma searchTag_no_tag (l : List Char)
    (h : ¬ ∃ pre post, l = pre ++ tagChars ++ post) : searchTag l = none := by
  induction l with
  | nil => rfl
  | cons c cs ih =>
    have htry : tryTag (c :: cs) = none := by
      unfold tryTag
      cases hsw : startsWithChars tagChars (c :: cs) with
      | false => simp
      | true =>
        obtain ⟨r, hr⟩ := (startsWithChars_eq_true_iff _ _).mp hsw
        exact absurd ⟨[], r, by simpa using hr⟩ h
    rw [searchTag_cons_none htry]
    apply ih
    rintro ⟨pre, post, hp⟩
    exact h ⟨c :: pre, post, by simp [hp]⟩

lemma containsSub_eq_true_iff (pat l : List Char) :
    containsSub pat l = true ↔ ∃ pre post, l = pre ++ pat ++ post := by
  induction l with
  | nil =>
    simp only [containsSub, List.isEmpty_iff]
    constructor
    · intro hp
      exact ⟨[], [], by simp [hp]⟩
    · rintro ⟨pre, post, hp⟩
      rcases List.append_eq_nil.mp (List.append_eq_nil.mp hp.symm).1 with ⟨-, h2⟩
      exact h2
  | cons c cs ih =>
    simp only [containsSub, Bool.or_eq_true]
    constructor
    · rintro (hsw | hsub)
      · obtain ⟨r, hr⟩ := (startsWithChars_eq_true_iff _ _).mp hsw
        exact ⟨[], r, by simpa using hr⟩
      · obtain ⟨pre, post, hp⟩ := ih.mp hsub
        exact ⟨c :: pre, post, by simp [hp]⟩
    · rintro ⟨pre, post, hp⟩
      cases pre with
      | nil =>
        left
        rw [(startsWithChars_eq_true_iff _ _)]
        exact ⟨post, by simpa using hp⟩
      | cons p ps =>
        right
        obtain ⟨h1, h2⟩ := List.cons.inj hp
        exact ih.mpr ⟨ps, post, h2⟩

/-- C2: for every name containing the DIPBst tag followed by digits the
parser returns exactly the integer those digits denote (at the leftmost
match, with a maximal digit run), and for every name in which the tag never
occurs it returns None; the parser is a total function, so malformed input
raises no error. -/
theorem c2_tag_parser_exact :
    (∀ pre ds post : List Char, ds ≠ [] → (∀ c ∈ ds, c.isDigit = true) →
      (∀ c, post.head? = some c → c.isDigit = false) →
      (∀ i, i < pre.length → tryTag ((pre ++ tagChars ++ ds ++ post).drop i) = none) →
      extract_dipbst_from_folder_name (String.mk (pre ++ tagChars ++ ds ++ post))
        = some (digitsToNat ds))
    ∧ (∀ s : String, (¬ ∃ pre post, s.toList = pre ++ tagChars ++ post) →
      extract_dipbst_from_folder_name s = none) := by
  constructor
  · intro pre ds post hne h1 h2 hskip
    show searchTag (pre ++ tagChars ++ ds ++ post) = some (digitsToNat ds)
    have hassoc : pre ++ tagChars ++ ds ++ post = pre ++ (tagChars ++ (ds ++ post)) := by
      simp [List.append_assoc]
    rw [hassoc]
    rw [searchTag_skip pre (tagChars ++ (ds ++ post))
      (fun i hi => by rw [← hassoc]; exact hskip i hi)]
    have htag := tryTag_at_tag ds post hne h1 h2
    cases hl : tagChars ++ (ds ++ post) with
    | nil => simp [tagChars] at hl
    | cons a as =>
      rw [← hl]
      rw [show searchTag (tagChars ++ (ds ++ post))
        = match tryTag (tagChars ++ (ds ++ post)) with
          | some n => some n
          | none => searchTag as from by rw [hl]; rfl]
      rw [htag]
  · intro s hs
    exact searchTag_no_tag s.toList hs

/-- C2 witness: the docstring-style example parses to its burst size, a name
without the tag parses to None. -/
theorem c2_tag_parser_exact_witness :
    extract_dipbst_from_folder_name ("1_Dinit0_DIPBst100_noJ") = some 100
    ∧ extract_dipbst_from_folder_name ("raw_data_7") = none := by
  constructor
  · have h := c2_tag_parser_exact.1 ("1_Dinit0_".toList) ("100".toList) ("_noJ".toList)
      (by decide) (by decide) (by decide) (by decide)
    have e1 : String.mk (("1_Dinit0_".toList) ++ tagChars ++ ("100".toList) ++ ("_noJ".toList))
        = "1_Dinit0_DIPBst100_noJ" := by decide
    have e2 : digitsToNat ("100".toList) = 100 := by decide
    rw [e1, e2] at h
    exact h
  · refine c2_tag_parser_exact.2 ("raw_data_7") ?_
    rintro ⟨pre, post, hp⟩
    have hc : containsSub tagChars (("raw_data_7" : String).toList) = true :=
      (containsSub_eq_true_iff _ _).mpr ⟨pre, post, hp⟩
    exact absurd hc (by decide)

/-! Helper lemmas for peak extraction. -/

lemma idxmaxGo_map_num (l : List ℚ) : ∀ (i : Nat) (b : Nat × ℚ),
    Peak.idxmaxGo (l.map Cell.num) i (some b) = some (Peak.argmaxFrom l i b) := by
  induction l with
  | nil => intro i b; rfl
  | cons q qs ih =>
    intro i b
    by_cases h : b.2 < q
    · simp [Peak.idxmaxGo, Cell.toQ, Peak.argmaxFrom, h, ih]
    · simp [Peak.idxmaxGo, Cell.toQ, Peak.argmaxFrom, h, ih]

lemma argmaxFrom_spec (l : List ℚ) : ∀ (i : Nat) (b : Nat × ℚ),
    (Peak.argmaxFrom l i b = b ∧ ∀ j, j < l.length → l.getD j 0 ≤ b.2)
    ∨ (∃ k, k < l.length ∧ Peak.argmaxFrom l i b = (i + k, l.getD k 0)
        ∧ b.2 < l.getD k 0
        ∧ (∀ j, j < l.length → l.getD j 0 ≤ l.getD k 0)
        ∧ (∀ j, j < k → l.getD j 0 < l.getD k 0)) := by
  induction l with
  | nil =>
    intro i b
    left
    exact ⟨rfl, fun j hj => absurd hj (by simp)⟩
  | cons q qs ih =>
    intro i b
    by_cases h : b.2 < q
    · have hstep : Peak.argmaxFrom (q :: qs) i b = Peak.argmaxFrom qs (i + 1) (i, q) := by
        simp [Peak.argmaxFrom, h]
      rcases ih (i + 1) (i, q) with ⟨heq, hle⟩ | ⟨k, hk, heq, hlt, hle, hstrict⟩
      · right
        refine ⟨0, by simp, ?_, by simpa using h, ?_, ?_⟩
        · rw [hstep, heq]
          simp
        · intro j hj
          cases j with
          | zero => simp
          | succ j' =>
            simp only [List.getD_cons_succ, List.getD_cons_zero]
            refine hle j' ?_
            simp only [List.length_cons] at hj
            omega
        · intro j hj
          exact absurd hj (by omega)
      · right
        refine ⟨k + 1, ?_, ?_, ?_, ?_, ?_⟩
        · simp only [List.length_cons]
          omega
        · have hidx : (i + 1) + k = i + (k + 1) := by omega
          rw [hstep, heq, hidx]
          simp only [List.getD_cons_succ]
        · simp only [List.getD_cons_succ]
          exact lt_trans h (by simpa using hlt)
        · intro j hj
          cases j with
          | zero =>
            simp only [List.getD_cons_zero, List.getD_cons_succ]
            exact le_of_lt (by simpa using hlt)
          | succ j' =>
            simp only [List.getD_cons_succ]
            refine hle j' ?_
            simp only [List.length_cons] at hj
            omega
        · intro j hj
          cases j with
          | zero =>
            simp only [List.getD_cons_zero, List.getD_cons_succ]
            exact (by simpa using hlt)
          | succ j' =>
            simp only [List.getD_cons_succ]
            exact hstrict j' (by omega)
    · have hstep : Peak.argmaxFrom (q :: qs) i b = Peak.argmaxFrom qs (i + 1) b := by
        simp [Peak.argmaxFrom, h]
      rcases ih (i + 1) b with ⟨heq, hle⟩ | ⟨k, hk, heq, hlt, hle, hstrict⟩
      · left
        refine ⟨by rw [hstep, heq], ?_⟩
        intro j hj
        cases j with
        | zero => simpa using le_of_not_lt h
        | succ j' =>
          simp only [List.getD_cons_succ]
          refine hle j' ?_
          simp only [List.length_cons] at hj
          omega
      · right
        refine ⟨k + 1, ?_, ?_, ?_, ?_, ?_⟩
        · simp only [List.length_cons]
          omega
        · have hidx : (i + 1) + k = i + (k + 1) := by omega
          rw [hstep, heq, hidx]
          simp only [List.getD_cons_succ]
        · simp only [List.getD_cons_succ]
          exact hlt
        · intro j hj
          cases j with
          | zero =>
            simp only [List.getD_cons_zero, List.getD_cons_succ]
            exact le_of_lt (lt_of_le_of_lt (le_of_not_lt h) hlt)
          | succ j' =>
            simp only [List.getD_cons_succ]
            refine hle j' ?_
            simp only [List.length_cons] at hj
            omega
        · intro j hj
          cases j with
          | zero =>
            simp only [List.getD_cons_zero, List.getD_cons_succ]
            exact lt_of_le_of_lt (le_of_not_lt h) hlt
          | succ j' =>
            simp only [List.getD_cons_succ]
            exact hstrict j' (by omega)

lemma map_num_no_str (vals : List ℚ) :
    (vals.map Cell.num).any Peak.Cell.isStr = false := by
  induction vals with
  | nil => rfl
  | cons q qs ih => simp [Peak.Cell.isStr, ih]

lemma getD_map_num (vals : List ℚ) (i : Nat) (h : i < vals.length) :
    (vals.map Cell.num).getD i Cell.nan = Cell.num (vals.getD i 0) := by
  rw [List.getD_eq_getElem?_getD, List.getD_eq_getElem?_getD, List.getElem?_map,
    List.getElem?_eq_getElem h]
  rfl

/-- C3: on a run record whose measurement column is numeric, the peak
extractor returns the maximum of that column together with the time entry of
its row, and among rows sharing the maximum it picks the first (stable
argmax). -/
theorem c3_peak_stable_argmax :
    ∀ (d : Peak.SimDir) (bst : Nat) (df : DF) (tc : List Cell) (vals : List ℚ),
      extract_dipbst_from_folder_name d.name = some bst →
      d.data = some df → Peak.hasNoRows df = false →
      df.col? timeName = some tc →
      df.col? Peak.ifnName = some (vals.map Cell.num) →
      vals ≠ [] →
      ∃ i, i < vals.length
        ∧ Peak.process_simulation_dir d
            = some ⟨bst, d.seed.getD (-1), vals.getD i 0, tc.getD i Cell.nan,
                    Peak.baselineLabel⟩
        ∧ (∀ j, j < vals.length → vals.getD j 0 ≤ vals.getD i 0)
        ∧ (∀ j, j < i → vals.getD j 0 < vals.getD i 0) := by
  intro d bst df tc vals hb hd hrows htc hic hne
  cases vals with
  | nil => exact absurd rfl hne
  | cons v vs =>
    have hgo : Peak.idxmaxCells ((v :: vs).map Cell.num)
        = some ((Peak.argmaxFrom vs 1 (0, v)).1) := by
      simp [Peak.idxmaxCells, Peak.idxmaxGo, Cell.toQ, idxmaxGo_map_num vs 1 (0, v)]
    rcases argmaxFrom_spec vs 1 (0, v) with ⟨heq, hle⟩ | ⟨k, hk, heq, hlt, hle, hstrict⟩
    · have hmax : Peak.idxmaxCells ((v :: vs).map Cell.num) = some 0 := by
        rw [hgo, heq]
      have hgd : ((v :: vs).map Cell.num).getD 0 Cell.nan
          = Cell.num ((v :: vs).getD 0 0) := getD_map_num _ 0 (by simp)
      refine ⟨0, by simp, ?_, ?_, ?_⟩
      · simp only [Peak.process_simulation_dir, hb, hd, hrows, htc, hic, map_num_no_str,
          Bool.false_eq_true, if_false, hmax, hgd, Cell.toQ, Option.getD_some]
      · intro j hj
        cases j with
        | zero => exact le_refl _
        | succ j' =>
          simp only [List.getD_cons_succ, List.getD_cons_zero]
          refine hle j' ?_
          simp only [List.length_cons] at hj
          omega
      · intro j hj
        exact absurd hj (by omega)
    · have hmax : Peak.idxmaxCells ((v :: vs).map Cell.num) = some (k + 1) := by
        rw [hgo, heq]
        simp [Nat.add_comm]
      have hgd : ((v :: vs).map Cell.num).getD (k + 1) Cell.nan
          = Cell.num ((v :: vs).getD (k + 1) 0) :=
        getD_map_num _ (k + 1) (by simp only [List.length_cons]; omega)
      refine ⟨k + 1, by simp only [List.length_cons]; omega, ?_, ?_, ?_⟩
      · simp only [Peak.process_simulation_dir, hb, hd, hrows, htc, hic, map_num_no_str,
          Bool.false_eq_true, if_false, hmax, hgd, Cell.toQ, Option.getD_some]
      · intro j hj
        cases j with
        | zero =>
          simp only [List.getD_cons_zero, List.getD_cons_succ]
          exact le_of_lt (by simpa using hlt)
        | succ j' =>
          simp only [List.getD_cons_succ]
          refine hle j' ?_
          simp only [List.length_cons] at hj
          omega
      · intro j hj
        cases j with
        | zero =>
          simp only [List.getD_cons_zero, List.getD_cons_succ]
          exact (by simpa using hlt)
        | succ j' =>
          simp only [List.getD_cons_succ]
          exact hstrict j' (by omega)

/-- C3 witness: the record with values 0.1, 0.5, 0.3 at times 0, 1, 2 peaks
at value 0.5, time 1 (first maximum). -/
theorem c3_peak_stable_argmax_witness :
    (∃ i, i < 3
      ∧ Peak.process_simulation_dir exampleSim
          = some ⟨20, 1, ([1/10, 1/2, 3/10] : List ℚ).getD i 0,
                  ([Cell.num 0, Cell.num 1, Cell.num 2]).getD i Cell.nan,
                  Peak.baselineLabel⟩)
    ∧ Peak.process_simulation_dir exampleSim
        = some ⟨20, 1, 1/2, Cell.num 1, Peak.baselineLabel⟩ := by
  constructor
  · obtain ⟨i, hi, heq, -, -⟩ := c3_peak_stable_argmax exampleSim 20 exampleDF
      [Cell.num 0, Cell.num 1, Cell.num 2] [1/10, 1/2, 3/10]
      (by decide) rfl (by decide) rfl rfl (by decide)
    exact ⟨i, by simpa using hi, heq⟩
  · have hb : extract_dipbst_from_folder_name exampleSim.name = some 20 := by decide
    have hd : exampleSim.data = some exampleDF := rfl
    have hsd : exampleSim.seed = some 1 := rfl
    have hrows : Peak.hasNoRows exampleDF = false := by decide
    have htc : exampleDF.col? timeName = some [Cell.num 0, Cell.num 1, Cell.num 2] := rfl
    have hic : exampleDF.col? Peak.ifnName
        = some [Cell.num (1/10), Cell.num (1/2), Cell.num (3/10)] := rfl
    have hstr : ([Cell.num (1/10), Cell.num (1/2), Cell.num (3/10)]).any Peak.Cell.isStr
        = false := rfl
    have hmax : Peak.idxmaxCells [Cell.num (1/10), Cell.num (1/2), Cell.num (3/10)]
        = some 1 := by
      norm_num [Peak.idxmaxCells, Peak.idxmaxGo, Cell.toQ]
    simp only [Peak.process_simulation_dir, hb, hd, hsd, hrows, htc, hic, hstr,
      Bool.false_eq_true, if_false, hmax, Option.getD_some, Cell.toQ,
      List.getD_cons_succ, List.getD_cons_zero]

/-! Helper lemmas for the aggregator. -/

lemma find?_name_eq_of_nodup {cols : List (String × List Cell)}
    {nc : String × List Cell}
    (hnd : (cols.map Prod.fst).Nodup) (hmem : nc ∈ cols) :
    cols.find? (fun p => p.1 = nc.1) = some nc := by
  induction cols with
  | nil => cases hmem
  | cons h t ih =>
    rw [List.map_cons, List.nodup_cons] at hnd
    rcases List.mem_cons.mp hmem with rfl | hmem2
    · rw [List.find?_cons_of_pos _ (by simp)]
    · have hne : h.1 ≠ nc.1 := by
        intro heq
        exact hnd.1 (heq ▸ List.mem_map_of_mem Prod.fst hmem2)
      rw [List.find?_cons_of_neg _ (by simp [hne])]
      exact ih hnd.2 hmem2

lemma nanmean_single (c : Cell) (h : Peak.Cell.isStr c = false) :
    nanmeanCells [c] = c := by
  cases c with
  | num q => simp [nanmeanCells, Cell.toQ]
  | str t => simp [Peak.Cell.isStr] at h
  | nan => simp [nanmeanCells, Cell.toQ]

lemma range_map_getD_eq (l : List Cell) (g : Cell → Cell)
    (h : ∀ c ∈ l, g c = c) :
    (List.range l.length).map (fun i => g (l.getD i Cell.nan)) = l := by
  induction l with
  | nil => rfl
  | cons c cs ih =>
    have ht := ih (fun x hx => h x (List.mem_cons_of_mem c hx))
    simp only [List.length_cons, List.range_succ_eq_map, List.map_cons, List.getD_cons_zero]
    rw [h c (List.mem_cons_self c cs), List.map_map]
    have hfun : (fun i => g ((c :: cs).getD i Cell.nan)) ∘ Nat.succ
        = fun i => g (cs.getD i Cell.nan) := by
      funext i
      simp [Function.comp, List.getD_cons_succ]
    rw [hfun, ht]

lemma aggCol_single (r : DF) (nc : String × List Cell)
    (hfind : r.cols.find? (fun p => p.1 = nc.1) = some nc)
    (h : ∀ c ∈ nc.2, Peak.Cell.isStr c = false) :
    Agg.aggCol [r] nc.1 nc.2 = nc.2 := by
  have hcol : DF.col? r nc.1 = some nc.2 := by simp [DF.col?, hfind]
  have hvals : [r].filterMap (fun d => DF.col? d nc.1) = [nc.2] := by
    simp [List.filterMap, hcol]
  unfold Agg.aggCol
  rw [hvals]
  simp only [List.headD_cons, List.all_cons, List.all_nil, decide_True, Bool.and_true,
    if_true, List.map_cons, List.map_nil]
  exact range_map_getD_eq nc.2 (fun c => nanmeanCells [c]) (fun c hc => nanmean_single c (h c hc))

/-- C5 counterexample: a singleton group whose record carries a non-numeric
column is not returned unchanged — the text entry becomes NaN, because the
numeric-dtype fallback in the source is unreachable (coercion always yields
a float array) and nanmean of an all-NaN row is NaN. -/
theorem c5_counterexample :
    Agg.calculate_averages_for_group [⟨[(timeName, [Cell.num 0]), ("L", [Cell.str "A"])]⟩]
      ≠ some ⟨[(timeName, [Cell.num 0]), ("L", [Cell.str "A"])]⟩ := by decide

/-- C5 (amended): aggregating a singleton group returns the member record
unchanged, provided its column names are distinct (as the CSV reader
guarantees) and every non-time cell is numeric or NaN; a text cell would
instead be replaced by NaN. -/
theorem c5_singleton_identity (r : DF)
    (hnd : (r.cols.map Prod.fst).Nodup)
    (hcells : ∀ nc ∈ r.cols, nc.1 ≠ timeName → ∀ c ∈ nc.2, Peak.Cell.isStr c = false) :
    Agg.calculate_averages_for_group [r] = some r := by
  cases r with
  | mk cols =>
    simp only [Agg.calculate_averages_for_group]
    refine congrArg some (congrArg DF.mk ?_)
    conv_rhs => rw [← List.map_id cols]
    apply List.map_congr_left
    intro nc hmem
    by_cases ht : nc.1 = timeName
    · simp [ht]
    · simp only [ht, if_false, id]
      have h2 := aggCol_single ⟨cols⟩ nc (find?_name_eq_of_nodup hnd hmem)
        (hcells nc hmem ht)
      rw [h2]

/-- C5 witness: a numeric two-column record is returned unchanged by the
singleton aggregation. -/
theorem c5_singleton_identity_witness :
    Agg.calculate_averages_for_group [goodDF] = some goodDF :=
  c5_singleton_identity goodDF (by decide) (by decide)

/-! Helper lemmas for the signal-to-noise ratio. -/

lemma sum_map_sub_sq (l : List ℚ) (m : ℚ) :
    (l.map (fun x => (x - m) ^ 2)).sum
      = (l.map (fun x => x ^ 2)).sum - 2 * m * l.sum + l.length * m ^ 2 := by
  induction l with
  | nil => simp
  | cons q qs ih =>
    simp only [List.map_cons, List.sum_cons, List.length_cons, ih]
    push_cast
    ring

lemma sampleVar_eq_specVarSumSq (l : List ℚ) :
    Snr.sampleVar l = Snr.specVarSumSq l := by
  by_cases h : l.length < 2
  · simp [Snr.sampleVar, Snr.specVarSumSq, h]
  · have hn : (l.length : ℚ) ≠ 0 := Nat.cast_ne_zero.mpr (by omega)
    have hsum : (l.length : ℚ) * Snr.qmean l = l.sum := by
      rw [Snr.qmean]
      field_simp
    have key : (l.map (fun x => (x - Snr.qmean l) ^ 2)).sum
        = (l.map (fun x => x ^ 2)).sum - l.length * Snr.qmean l ^ 2 := by
      rw [sum_map_sub_sq, ← hsum]
      ring
    simp only [Snr.sampleVar, Snr.specVarSumSq, h, if_false, key]

/-- C9: calculate_snr returns the between-group variance (sample variance of
the per-group means) divided by the mean within-group variance (NaN-skipping
mean of the per-group sample variances), and returns infinity instead of
raising whenever the mean within-group variance is zero; the variances agree
with the textbook sum-of-squares form. -/
theorem c9_snr_formula :
    ∀ rows : List (Int × ℚ),
      (Snr.meanVarWithin rows = some 0 → Snr.calculate_snr rows = Snr.SnrVal.inf)
      ∧ (∀ v m, Snr.varBetween rows = some v → Snr.meanVarWithin rows = some m →
          m ≠ 0 → Snr.calculate_snr rows = Snr.SnrVal.val (v / m))
      ∧ Snr.varBetween rows = Snr.specVarSumSq ((Snr.groupsOf rows).map Snr.qmean)
      ∧ Snr.meanVarWithin rows
          = Snr.nanmeanOpt ((Snr.groupsOf rows).map Snr.specVarSumSq) := by
  intro rows
  refine ⟨?_, ?_, ?_, ?_⟩
  · intro h
    simp [Snr.calculate_snr, h]
  · intro v m hv hm hne
    simp [Snr.calculate_snr, hm, hne, hv]
  · unfold Snr.varBetween
    rw [sampleVar_eq_specVarSumSq]
  · unfold Snr.meanVarWithin
    congr 1
    exact List.map_congr_left (fun x hx => sampleVar_eq_specVarSumSq x)

/-- C9 witness: two groups of two values each give between-variance 25/2,
mean within-variance 5, ratio 5/2. -/
theorem c9_snr_formula_witness :
    Snr.calculate_snr [(0, 1), (0, 3), (1, 5), (1, 9)] = Snr.SnrVal.val (5 / 2) := by
  have hm : Snr.meanVarWithin [(0, 1), (0, 3), (1, 5), (1, 9)] = some 5 := by
    simp +decide only [Snr.meanVarWithin, Snr.groupsOf, Snr.groupKeys, dedupSeen,
      Snr.groupValues, Snr.nanmeanOpt, Snr.sampleVar, Snr.qmean, List.map,
      List.filter, List.mem_cons, List.not_mem_nil, List.filterMap, id]
    norm_num
  have hv : Snr.varBetween [(0, 1), (0, 3), (1, 5), (1, 9)] = some (25 / 2) := by
    simp +decide only [Snr.varBetween, Snr.groupsOf, Snr.groupKeys, dedupSeen,
      Snr.groupValues, Snr.sampleVar, Snr.qmean, List.map,
      List.filter, List.mem_cons, List.not_mem_nil]
    norm_num
  have h := (c9_snr_formula [(0, 1), (0, 3), (1, 5), (1, 9)]).2.1 (25 / 2) 5 hv hm
    (by norm_num)
  rw [h]
  norm_num

/-! Helper lemmas for permutation invariance of the aggregator. -/

lemma find?_name_map {b g : Type} (f : String × b → String × g)
    (hf : ∀ p, (f p).1 = p.1) (cols : List (String × b)) (c : String) :
    (cols.map f).find? (fun p => p.1 = c) = (cols.find? (fun p => p.1 = c)).map f := by
  induction cols with
  | nil => rfl
  | cons h t ih =>
    by_cases hc : h.1 = c
    · rw [List.map_cons, List.find?_cons_of_pos _ (by simp [hf h, hc]),
        List.find?_cons_of_pos _ (by simp [hc])]
      rfl
    · rw [List.map_cons, List.find?_cons_of_neg _ (by simp [hf h, hc]),
        List.find?_cons_of_neg _ (by simp [hc])]
      exact ih

lemma col?_length_of_shape {d : DF} {sh : List (String × Nat)} (hs : d.shape = sh)
    (c : String) :
    (d.col? c).map List.length = (sh.find? (fun p => p.1 = c)).map Prod.snd := by
  rw [← hs]
  simp only [DF.shape, DF.col?]
  rw [find?_name_map (fun nc : String × List Cell => (nc.1, nc.2.length)) (fun p => rfl)]
  cases h : d.cols.find? (fun p => p.1 = c) <;> simp [h]

lemma nanmeanCells_perm {l1 l2 : List Cell} (h : l1.Perm l2) :
    nanmeanCells l1 = nanmeanCells l2 := by
  have hp := h.filterMap Cell.toQ
  have hlen := hp.length_eq
  have hsum := hp.sum_eq
  unfold nanmeanCells
  by_cases he : (l1.filterMap Cell.toQ).isEmpty = true
  · have he2 : (l2.filterMap Cell.toQ).isEmpty = true := by
      rw [List.isEmpty_iff_length_eq_zero] at he ⊢
      rw [← hlen]
      exact he
    simp [he, he2]
  · have he2 : ¬ (l2.filterMap Cell.toQ).isEmpty = true := by
      rw [List.isEmpty_iff_length_eq_zero] at he ⊢
      rw [← hlen]
      exact he
    simp [he, he2, hsum, hlen]

lemma aggCol_perm {dfs dfs' : List DF} {sh : List (String × Nat)}
    (hperm : dfs.Perm dfs') (hsh : ∀ d ∈ dfs, d.shape = sh)
    {pr : String × Nat} (hfind : sh.find? (fun p => p.1 = pr.1) = some pr)
    (v1 v2 : List Cell) :
    Agg.aggCol dfs pr.1 v1 = Agg.aggCol dfs' pr.1 v2 := by
  have hsh' : ∀ d ∈ dfs', d.shape = sh := fun d hd => hsh d (hperm.mem_iff.mpr hd)
  have hcv : (dfs.filterMap (fun d => d.col? pr.1)).Perm
      (dfs'.filterMap (fun d => d.col? pr.1)) := hperm.filterMap _
  have hlen1 : ∀ l ∈ dfs.filterMap (fun d => d.col? pr.1), l.length = pr.2 := by
    intro l hl
    obtain ⟨d, hd, hdl⟩ := List.mem_filterMap.mp hl
    have h := col?_length_of_shape (hsh d hd) pr.1
    rw [hdl, hfind] at h
    simpa using h
  have hlen2 : ∀ l ∈ dfs'.filterMap (fun d => d.col? pr.1), l.length = pr.2 := by
    intro l hl
    obtain ⟨d, hd, hdl⟩ := List.mem_filterMap.mp hl
    have h := col?_length_of_shape (hsh' d hd) pr.1
    rw [hdl, hfind] at h
    simpa using h
  unfold Agg.aggCol
  cases h1 : dfs.filterMap (fun d => d.col? pr.1) with
  | nil =>
    have h2 : dfs'.filterMap (fun d => d.col? pr.1) = [] := by
      rw [h1] at hcv
      exact (List.Perm.nil_eq hcv).symm
    rw [h2]
    rfl
  | cons a as =>
    have hex : ∃ b bs, dfs'.filterMap (fun d => d.col? pr.1) = b :: bs := by
      cases hx : dfs'.filterMap (fun d => d.col? pr.1) with
      | nil =>
        rw [h1, hx] at hcv
        have := hcv.length_eq
        simp at this
      | cons b bs => exact ⟨b, bs, rfl⟩
    obtain ⟨b, bs, h2⟩ := hex
    have hpab : (a :: as).Perm (b :: bs) := by
      rw [← h1, ← h2]
      exact hcv
    have ha : a.length = pr.2 := hlen1 a (by rw [h1]; exact List.mem_cons_self a as)
    have hb : b.length = pr.2 := hlen2 b (by rw [h2]; exact List.mem_cons_self b bs)
    have hall1 : ((a :: as).all fun l => l.length = a.length) = true := by
      rw [List.all_eq_true]
      intro l hl
      have hx := hlen1 l (by rw [h1]; exact hl)
      simp [ha, hx]
    have hall2 : ((b :: bs).all fun l => l.length = b.length) = true := by
      rw [List.all_eq_true]
      intro l hl
      have hx := hlen2 l (by rw [h2]; exact hl)
      simp [hb, hx]
    rw [h2]
    simp only [List.headD_cons]
    rw [if_pos hall1, if_pos hall2]
    have hr : a.length = b.length := by rw [ha, hb]
    rw [hr]
    apply List.map_congr_left
    intro i hi
    exact nanmeanCells_perm (hpab.map (fun l => l.getD i Cell.nan))

/-- C4 counterexample: aggregating the same two run records in the two
possible orders yields different outputs — already their column sets differ,
because the summary keeps the first member's columns. -/
theorem c4_counterexample :
    (Agg.calculate_averages_for_group
        [⟨[(timeName, [Cell.num 0]), ("A", [Cell.num 1])]⟩,
         ⟨[(timeName, [Cell.num 0]), ("B", [Cell.num 4])]⟩]).map DF.colNames
      ≠ (Agg.calculate_averages_for_group
        [⟨[(timeName, [Cell.num 0]), ("B", [Cell.num 4])]⟩,
         ⟨[(timeName, [Cell.num 0]), ("A", [Cell.num 1])]⟩]).map DF.colNames := by
  decide

/-- C4 (amended): group aggregation is commutative in member order for
groups whose members all share one shape (same column names in the same
order with the same lengths) and one time column: any permutation of the
members yields the identical summary table.  Without the shared shape the
output depends on which member comes first. -/
theorem c4_commutative_on_uniform_groups :
    ∀ (dfs dfs' : List DF) (sh : List (String × Nat)) (tv : List Cell),
      dfs.Perm dfs' →
      (∀ d ∈ dfs, d.shape = sh) →
      (∀ d ∈ dfs, ∀ nc ∈ d.cols, nc.1 = timeName → nc.2 = tv) →
      Agg.calculate_averages_for_group dfs = Agg.calculate_averages_for_group dfs' := by
  intro dfs dfs' sh tv hperm hsh htv
  cases dfs with
  | nil =>
    rw [← List.Perm.nil_eq hperm]
  | cons d0 rest =>
    cases dfs' with
    | nil =>
      have := hperm.length_eq
      simp at this
    | cons e0 rest' =>
      have hsh' : ∀ d ∈ e0 :: rest', d.shape = sh :=
        fun d hd => hsh d (hperm.mem_iff.mpr hd)
      have htv' : ∀ d ∈ e0 :: rest', ∀ nc ∈ d.cols, nc.1 = timeName → nc.2 = tv :=
        fun d hd => htv d (hperm.mem_iff.mpr hd)
      have hd0 : d0.shape = sh := hsh d0 (List.mem_cons_self _ _)
      have he0 : e0.shape = sh := hsh' e0 (List.mem_cons_self _ _)
      have hlen0 : d0.cols.length = sh.length := by
        rw [← hd0]
        simp [DF.shape]
      have hlen0' : e0.cols.length = sh.length := by
        rw [← he0]
        simp [DF.shape]
      simp only [Agg.calculate_averages_for_group]
      refine congrArg some (congrArg DF.mk ?_)
      apply List.ext_getElem
      · simp [hlen0, hlen0']
      · intro j hj1 hj2
        have hj0 : j < d0.cols.length := by simpa using hj1
        have hj0' : j < e0.cols.length := by simpa using hj2
        have hjs : j < sh.length := by omega
        rw [List.getElem_map, List.getElem_map]
        have e1 : sh[j]? = some ((d0.cols[j]).1, (d0.cols[j]).2.length) := by
          rw [← hd0]
          simp [DF.shape, List.getElem?_eq_getElem, hj0]
        have e2 : sh[j]? = some ((e0.cols[j]).1, (e0.cols[j]).2.length) := by
          rw [← he0]
          simp [DF.shape, List.getElem?_eq_getElem, hj0']
        have hshj : (d0.cols[j]).1 = (e0.cols[j]).1 := by
          have hee := Option.some.inj (e1.symm.trans e2)
          exact (Prod.ext_iff.mp hee).1
        by_cases ht : (d0.cols[j]).1 = timeName
        · have ht' : (e0.cols[j]).1 = timeName := by
            rw [← hshj]
            exact ht
          rw [if_pos ht, if_pos ht']
          have v1 := htv d0 (List.mem_cons_self _ _) _ (List.getElem_mem hj0) ht
          have v2 := htv' e0 (List.mem_cons_self _ _) _ (List.getElem_mem hj0') ht'
          refine Prod.ext_iff.mpr ⟨by rw [ht, ht'], by rw [v1, v2]⟩
        · have ht' : ¬ (e0.cols[j]).1 = timeName := by
            rw [← hshj]
            exact ht
          rw [if_neg ht, if_neg ht']
          have hmem : ((d0.cols[j]).1, (d0.cols[j]).2.length) ∈ sh := by
            rw [← hd0]
            exact List.mem_map_of_mem _ (List.getElem_mem hj0)
          have hfindSome : (sh.find? (fun p => p.1 = (d0.cols[j]).1)).isSome = true :=
            List.find?_isSome.mpr ⟨_, hmem, by simp⟩
          obtain ⟨pr, hfind⟩ := Option.isSome_iff_exists.mp hfindSome
          have hpr1 : pr.1 = (d0.cols[j]).1 := by
            have := List.find?_some hfind
            simpa using this
          have hfind2 : sh.find? (fun p => p.1 = pr.1) = some pr := by
            rw [hpr1]
            exact hfind
          refine Prod.ext_iff.mpr ⟨hshj, ?_⟩
          have hagg := aggCol_perm hperm hsh hfind2 ((d0.cols[j]).2) ((e0.cols[j]).2)
      -- hagg speaks about pr.1; transport along hpr1 and hshj
          rw [hpr1] at hagg
          rw [← hshj]
          exact hagg

/-- C4 witness: two same-shape records aggregate identically in both
orders. -/
theorem c4_commutative_on_uniform_groups_witness :
    Agg.calculate_averages_for_group [goodDF, goodDF2]
      = Agg.calculate_averages_for_group [goodDF2, goodDF] :=
  c4_commutative_on_uniform_groups [goodDF, goodDF2] [goodDF2, goodDF]
    goodDF.shape [Cell.num 0, Cell.num 1]
    (List.Perm.swap goodDF2 goodDF []) (by decide) (by decide)

/-! Helper lemmas for exact-time alignment of the aggregator. -/

lemma filterMap_col_eq_map (dfs : List DF) (c : String)
    (h : ∀ d ∈ dfs, (d.col? c).isSome = true) :
    dfs.filterMap (fun d => d.col? c) = dfs.map (fun d => (d.col? c).getD []) := by
  induction dfs with
  | nil => rfl
  | cons d ds ih =>
    obtain ⟨l, hl⟩ := Option.isSome_iff_exists.mp (h d (List.mem_cons_self d ds))
    simp [hl, ih (fun x hx => h x (List.mem_cons_of_mem d hx))]

lemma col?_isSome_of_mem_names {d : DF} {c : String} (h : c ∈ d.colNames) :
    (d.col? c).isSome = true := by
  obtain ⟨nc, hmem, hnc⟩ := List.mem_map.mp h
  have hfs : (d.cols.find? (fun p => p.1 = c)).isSome = true :=
    List.find?_isSome.mpr ⟨nc, hmem, by simp [hnc]⟩
  cases hf : d.cols.find? (fun p => p.1 = c) with
  | none =>
    rw [hf] at hfs
    simp at hfs
  | some a => simp [DF.col?, hf]

lemma col?_elim {d : DF} {c : String} {l : List Cell} (h : d.col? c = some l) :
    ∃ nc ∈ d.cols, nc.2 = l ∧ nc.1 = c := by
  unfold DF.col? at h
  cases hf : d.cols.find? (fun p => p.1 = c) with
  | none =>
    rw [hf] at h
    simp at h
  | some nc =>
    rw [hf] at h
    refine ⟨nc, List.mem_of_find?_eq_some hf, ?_, ?_⟩
    · exact Option.some.inj (by simpa using h)
    · simpa using List.find?_some hf

lemma findIdx?_map_num_nodup : ∀ (t : List ℚ), t.Nodup → ∀ i, i < t.length →
    (t.map Cell.num).findIdx? (fun cell => cell = Cell.num (t.getD i 0)) = some i := by
  intro t
  induction t with
  | nil =>
    intro _ i hi
    simp at hi
  | cons x xs ih =>
    intro hnd i hi
    rw [List.nodup_cons] at hnd
    cases i with
    | zero =>
      simp only [List.getD_cons_zero, List.map_cons]
      rw [List.findIdx?_cons]
      simp
    | succ j =>
      have hj : j < xs.length := by
        simp only [List.length_cons] at hi
        omega
      simp only [List.getD_cons_succ, List.map_cons]
      rw [List.findIdx?_cons]
      have hne : ¬ (Cell.num x = Cell.num (xs.getD j 0)) := by
        intro he
        have hx : x = xs.getD j 0 := Cell.num.inj he
        have hmem : xs.getD j 0 ∈ xs := by
          rw [List.getD_eq_getElem?_getD, List.getElem?_eq_getElem hj]
          simp only [Option.getD_some]
          exact List.getElem_mem hj
        exact hnd.1 (hx ▸ hmem)
      rw [if_neg (by simpa using hne), List.findIdx?_succ, ih hnd.2 j hj]
      rfl

lemma getD_range_map_cell (f : Nat → Cell) {n i : Nat} (h : i < n) :
    ((List.range n).map f).getD i Cell.nan = f i := by
  rw [List.getD_eq_getElem?_getD, List.getElem?_map, List.getElem?_range h]
  rfl

lemma mem_getD_of_lt {l : List Cell} {i : Nat} (h : i < l.length) :
    l.getD i Cell.nan ∈ l := by
  rw [List.getD_eq_getElem?_getD, List.getElem?_eq_getElem h]
  simp only [Option.getD_some]
  exact List.getElem_mem h

/-- C1 counterexample: the aggregator averages by row position, not by exact
time match — two members with disjoint time grids are still averaged row by
row, so the output value at time 0 is 2 although the only member value at
exactly time 0 is 1; and a fully non-numeric column becomes NaN instead of
falling back to the first member's value. -/
theorem c1_counterexample :
    (Agg.calculate_averages_for_group
        [⟨[(timeName, [Cell.num 0]), ("V", [Cell.num 1])]⟩,
         ⟨[(timeName, [Cell.num 5]), ("V", [Cell.num 3])]⟩]
      = some ⟨[(timeName, [Cell.num 0]), ("V", [Cell.num 2])]⟩
      ∧ specGroupMeanAt
          [⟨[(timeName, [Cell.num 0]), ("V", [Cell.num 1])]⟩,
           ⟨[(timeName, [Cell.num 5]), ("V", [Cell.num 3])]⟩] ("V") 0 = some 1
      ∧ (2 : ℚ) ≠ 1)
    ∧ (Agg.calculate_averages_for_group
        [⟨[(timeName, [Cell.num 0]), ("L", [Cell.str "A"])]⟩,
         ⟨[(timeName, [Cell.num 0]), ("L", [Cell.str "B"])]⟩]
      = some ⟨[(timeName, [Cell.num 0]), ("L", [Cell.nan])]⟩
      ∧ Cell.nan ≠ Cell.str "A") := by
  refine ⟨⟨?_, ?_, by norm_num⟩, ⟨by decide, by decide⟩⟩
  · simp +decide [Agg.calculate_averages_for_group, Agg.aggCol, nanmeanCells, DF.col?,
      timeName, Cell.toQ, List.range_succ]
    norm_num
  · simp +decide [specGroupMeanAt, specValueAtTime, DF.col?, timeName, Cell.toQ,
      List.findIdx?_cons, List.filterMap]

lemma col?_mk_map (f : String × List Cell → String × List Cell)
    (hf : ∀ p, (f p).1 = p.1) (cols : List (String × List Cell)) (c : String) :
    (DF.mk (cols.map f)).col? c
      = (cols.find? (fun p => p.1 = c)).map (fun p => (f p).2) := by
  unfold DF.col?
  rw [show (DF.mk (cols.map f)).cols = cols.map f from rfl]
  rw [find?_name_map f hf cols c]
  cases h : cols.find? (fun p => p.1 = c) <;> simp

/-- C1 (amended): for a group whose members all share the first member's
column names (distinct, as the CSV reader guarantees), a duplicate-free time
grid, uniform column lengths, and numeric non-time cells, the summary keeps
the shared time grid and, for every non-time column and every row, the
summary value equals the arithmetic mean of the members' values at exactly
that row's time.  Without the shared grid the aggregator averages by row
position (see the counterexample), and a fully non-numeric column becomes
NaN rather than the first member's values. -/
theorem c1_exact_time_alignment :
    ∀ (d0 : DF) (rest : List DF) (t : List ℚ),
      (∀ d ∈ d0 :: rest, d.colNames = d0.colNames) →
      d0.colNames.Nodup →
      t.Nodup →
      (∀ d ∈ d0 :: rest, d.col? timeName = some (t.map Cell.num)) →
      (∀ d ∈ d0 :: rest, ∀ nc ∈ d.cols, nc.2.length = t.length) →
      (∀ d ∈ d0 :: rest, ∀ nc ∈ d.cols, nc.1 ≠ timeName →
        ∀ cell ∈ nc.2, (Cell.toQ cell).isSome = true) →
      ∃ out, Agg.calculate_averages_for_group (d0 :: rest) = some out
        ∧ out.col? timeName = some (t.map Cell.num)
        ∧ (∀ c, c ∈ d0.colNames → c ≠ timeName →
            ∃ vc, out.col? c = some vc
              ∧ ∀ i, i < t.length →
                  (vc.getD i Cell.nan).toQ
                    = specGroupMeanAt (d0 :: rest) c (t.getD i 0)) := by
  intro d0 rest t hnames hnd htnd htime hlen hnum
  have hf : ∀ p : String × List Cell,
      ((fun nc => if nc.1 = timeName then nc
        else (nc.1, Agg.aggCol (d0 :: rest) nc.1 nc.2)) p).1 = p.1 := by
    intro p
    by_cases h : p.1 = timeName <;> simp [h]
  refine ⟨_, rfl, ?_, ?_⟩
  · rw [col?_mk_map _ hf d0.cols timeName]
    have h0 := htime d0 (List.mem_cons_self _ _)
    unfold DF.col? at h0
    cases hfd : d0.cols.find? (fun p => p.1 = timeName) with
    | none =>
      rw [hfd] at h0
      simp at h0
    | some ncf =>
      rw [hfd] at h0
      have hv : ncf.2 = t.map Cell.num := Option.some.inj (by simpa using h0)
      have hn : ncf.1 = timeName := by simpa using List.find?_some hfd
      simp [hn, hv]
  · intro c hc hct
    have hsome0 : (d0.col? c).isSome = true := col?_isSome_of_mem_names hc
    obtain ⟨v0, hv0⟩ := Option.isSome_iff_exists.mp hsome0
    have hmemall : ∀ d ∈ d0 :: rest, (d.col? c).isSome = true := by
      intro d hd
      apply col?_isSome_of_mem_names
      rw [hnames d hd]
      exact hc
    have hglen : ∀ d ∈ d0 :: rest, ((d.col? c).getD []).length = t.length := by
      intro d hd
      obtain ⟨l, hl⟩ := Option.isSome_iff_exists.mp (hmemall d hd)
      obtain ⟨nc, hmem, hsnd, -⟩ := col?_elim hl
      rw [hl]
      simp only [Option.getD_some]
      rw [← hsnd]
      exact hlen d hd nc hmem
    have hgnum : ∀ d ∈ d0 :: rest, ∀ cell ∈ (d.col? c).getD [],
        (Cell.toQ cell).isSome = true := by
      intro d hd cell hcell
      obtain ⟨l, hl⟩ := Option.isSome_iff_exists.mp (hmemall d hd)
      obtain ⟨nc, hmem, hsnd, hfst⟩ := col?_elim hl
      refine hnum d hd nc hmem (by rw [hfst]; exact hct) cell ?_
      rw [hl] at hcell
      simp only [Option.getD_some] at hcell
      rw [hsnd]
      exact hcell
    have hcv : (d0 :: rest).filterMap (fun d => d.col? c)
        = (d0 :: rest).map (fun d => (d.col? c).getD []) :=
      filterMap_col_eq_map _ c hmemall
    have haggeq : Agg.aggCol (d0 :: rest) c v0
        = (List.range t.length).map (fun i => nanmeanCells
            (((d0 :: rest).map (fun d => (d.col? c).getD [])).map
              (fun l => l.getD i Cell.nan))) := by
      unfold Agg.aggCol
      rw [hcv]
      have hhead : (((d0 :: rest).map (fun d => (d.col? c).getD [])).headD []).length
          = t.length := by
        simp only [List.map_cons, List.headD_cons]
        exact hglen d0 (List.mem_cons_self _ _)
      have hall : (((d0 :: rest).map fun d => (d.col? c).getD []).all
          fun l => l.length
            = ((((d0 :: rest).map fun d => (d.col? c).getD [])).headD []).length)
          = true := by
        rw [List.all_eq_true]
        intro l hl
        obtain ⟨d, hd, hdl⟩ := List.mem_map.mp hl
        rw [hhead]
        simp only [decide_eq_true_eq]
        rw [← hdl]
        exact hglen d hd
      rw [if_pos hall, hhead]
    refine ⟨Agg.aggCol (d0 :: rest) c v0, ?_, ?_⟩
    · rw [col?_mk_map _ hf d0.cols c]
      unfold DF.col? at hv0
      cases hfd : d0.cols.find? (fun p => p.1 = c) with
      | none =>
        rw [hfd] at hv0
        simp at hv0
      | some ncf =>
        rw [hfd] at hv0
        have hv : ncf.2 = v0 := Option.some.inj (by simpa using hv0)
        have hn : ncf.1 = c := by simpa using List.find?_some hfd
        have hnt : ¬ ncf.1 = timeName := by
          rw [hn]
          exact hct
        simp [hnt, hn, hv, hct]
    · intro i hi
      have hrow : (Agg.aggCol (d0 :: rest) c v0).getD i Cell.nan
          = nanmeanCells (((d0 :: rest).map (fun d => (d.col? c).getD [])).map
              (fun l => l.getD i Cell.nan)) := by
        rw [haggeq]
        exact getD_range_map_cell _ hi
      have hcellnum : ∀ d ∈ d0 :: rest,
          (Cell.toQ (((d.col? c).getD []).getD i Cell.nan)).isSome = true := by
        intro d hd
        apply hgnum d hd
        apply mem_getD_of_lt
        rw [hglen d hd]
        exact hi
      have hspecmem : ∀ d ∈ d0 :: rest, specValueAtTime d c (t.getD i 0)
          = Cell.toQ (((d.col? c).getD []).getD i Cell.nan) := by
        intro d hd
        obtain ⟨l, hl⟩ := Option.isSome_iff_exists.mp (hmemall d hd)
        simp only [specValueAtTime, htime d hd, hl,
          findIdx?_map_num_nodup t htnd i hi, Option.getD_some]
      have hfm : ((((d0 :: rest).map (fun d => (d.col? c).getD [])).map
          (fun l => l.getD i Cell.nan)).filterMap Cell.toQ)
          = (d0 :: rest).filterMap
              (fun d => Cell.toQ (((d.col? c).getD []).getD i Cell.nan)) := by
        rw [List.map_map, List.filterMap_map]
        rfl
      have hspecfm : (d0 :: rest).filterMap (fun d => specValueAtTime d c (t.getD i 0))
          = (d0 :: rest).filterMap
              (fun d => Cell.toQ (((d.col? c).getD []).getD i Cell.nan)) :=
        List.filterMap_congr hspecmem
      have hvs_ne : (d0 :: rest).filterMap
          (fun d => Cell.toQ (((d.col? c).getD []).getD i Cell.nan)) ≠ [] := by
        obtain ⟨q0, hq0⟩ := Option.isSome_iff_exists.mp
          (hcellnum d0 (List.mem_cons_self _ _))
        exact List.ne_nil_of_mem
          (List.mem_filterMap.mpr ⟨d0, List.mem_cons_self _ _, hq0⟩)
      rw [hrow]
      simp only [specGroupMeanAt, nanmeanCells]
      rw [hfm, hspecfm]
      cases hvcase : (d0 :: rest).filterMap
          (fun d => Cell.toQ (((d.col? c).getD []).getD i Cell.nan)) with
      | nil => exact absurd hvcase hvs_ne
      | cons a as => simp [Cell.toQ]

/-- C1 witness: a two-member group on the shared grid 0, 1 satisfies the
amended alignment statement. -/
theorem c1_exact_time_alignment_witness :
    ∃ out, Agg.calculate_averages_for_group [goodDF, goodDF2] = some out
      ∧ out.col? timeName = some (([0, 1] : List ℚ).map Cell.num)
      ∧ (∀ c, c ∈ goodDF.colNames → c ≠ timeName →
          ∃ vc, out.col? c = some vc
            ∧ ∀ i, i < ([0, 1] : List ℚ).length →
                (vc.getD i Cell.nan).toQ
                  = specGroupMeanAt [goodDF, goodDF2] c (([0, 1] : List ℚ).getD i 0)) :=
  c1_exact_time_alignment goodDF [goodDF2] [0, 1] (by decide) (by decide) (by decide)
    (by decide) (by decide) (by decide)
